import Mathlib

/-!
Shallow embedding of the offline-todo-sync server core.

The relational store is modelled as an explicit `DB` value (user ids,
category ids, todo rows, and the serial counter for fresh todo ids).
Timestamps are integers.  Handlers become pure functions that take the
current store and the server clock value `now` and return the new store
together with either their result or the error message they throw.

Fields that zod marks `nullable().optional()` are modelled as
`Option (Option _)`: the outer `Option` is "field absent (undefined)",
the inner one is SQL NULL.  An absent field is skipped by a drizzle
`update().set`, and falls back to the column default (NULL) on insert,
which is exactly how the handlers behave.
-/

namespace OfflineTodoSync

inductive Priority where
  | low
  | medium
  | high
deriving DecidableEq, Repr

/-- A persisted row of the `todos` table (`todosTable` in `db/schema`). -/
structure Todo where
  id : Nat
  user_id : String
  category_id : Option Nat
  title : String
  description : Option String
  is_completed : Bool
  due_date : Option Int
  priority : Priority
  created_at : Int
  updated_at : Int
  last_synced_at : Option Int
  client_updated_at : Int
deriving DecidableEq, Repr

/-- The relational store: `users`, `categories` (only their ids matter to the
sync core, which does pure existence checks on them), the `todos` rows, and
the next value of the serial `todos.id` column. -/
structure DB where
  users : List String
  categories : List Nat
  todos : List Todo
  nextId : Nat
deriving DecidableEq, Repr

/-- One element of `SyncTodosInput.todos` after zod parsing
(`syncTodosInputSchema`): `is_completed`, `priority` and `is_deleted` always
carry their defaults when omitted; `client_updated_at` is required. -/
structure SyncTodoEntry where
  client_id : Option String := none
  id : Option Nat := none
  category_id : Option (Option Nat) := none
  title : String
  description : Option (Option String) := none
  is_completed : Bool := false
  due_date : Option (Option Int) := none
  priority : Priority := Priority.medium
  client_updated_at : Int
  is_deleted : Bool := false
deriving DecidableEq, Repr

/-- The parsed argument of the `syncTodos` handler. -/
structure SyncTodosInput where
  user_id : String
  todos : List SyncTodoEntry
  last_sync_timestamp : Option (Option Int) := none
deriving DecidableEq, Repr

/-- `SELECT * FROM todos WHERE id = i AND user_id = uid`, first row. -/
def findTodo (db : DB) (i : Nat) (uid : String) : Option Todo :=
  db.todos.find? (fun t => decide (t.id = i ∧ t.user_id = uid))

/-- `DELETE FROM todos WHERE id = i AND user_id = uid`. -/
def deleteTodoRow (db : DB) (i : Nat) (uid : String) : DB :=
  { db with todos := db.todos.filter (fun t => !decide (t.id = i ∧ t.user_id = uid)) }

/-- The `.set({...})` object of the non-conflicting update branch of
`syncTodos`: every field of the entry is written (drizzle skips the
`undefined` ones, so those keep the row's value), and `updated_at`,
`last_synced_at` are advanced to the server clock. -/
def applyUpdateFields (row : Todo) (e : SyncTodoEntry) (now : Int) : Todo :=
  { row with
    category_id := e.category_id.getD row.category_id,
    title := e.title,
    description := e.description.getD row.description,
    is_completed := e.is_completed,
    due_date := e.due_date.getD row.due_date,
    priority := e.priority,
    updated_at := now,
    last_synced_at := some now,
    client_updated_at := e.client_updated_at }

/-- `UPDATE todos SET ... WHERE id = i AND user_id = uid`. -/
def updateTodoRows (db : DB) (i : Nat) (uid : String) (e : SyncTodoEntry) (now : Int) : DB :=
  { db with
    todos := db.todos.map
      (fun t => if t.id = i ∧ t.user_id = uid then applyUpdateFields t e now else t) }

/-- The row built by the `INSERT INTO todos` of the create branch: absent
nullable fields fall back to the NULL column default, `created_at` and
`updated_at` to `defaultNow()`, and `last_synced_at` is set explicitly. -/
def newTodoOf (nid : Nat) (uid : String) (e : SyncTodoEntry) (now : Int) : Todo :=
  { id := nid,
    user_id := uid,
    category_id := e.category_id.getD none,
    title := e.title,
    description := e.description.getD none,
    is_completed := e.is_completed,
    due_date := e.due_date.getD none,
    priority := e.priority,
    created_at := now,
    updated_at := now,
    last_synced_at := some now,
    client_updated_at := e.client_updated_at }

/-- The loop state of `syncTodos`: the store plus the two accumulator
arrays `synced` and `conflicts`. -/
structure SyncState where
  db : DB
  synced : List Todo
  conflicts : List Todo
deriving DecidableEq, Repr

/-- The create branch of the loop body (`else` arm): insert and push the
returned row onto `synced`. -/
def createStep (uid : String) (now : Int) (st : SyncState) (e : SyncTodoEntry) : SyncState :=
  let t := newTodoOf st.db.nextId uid e now
  { db := { st.db with todos := st.db.todos ++ [t], nextId := st.db.nextId + 1 },
    synced := st.synced ++ [t],
    conflicts := st.conflicts }

/-- One iteration of the `for (const todoData of input.todos)` loop of
`syncTodos`.  JavaScript truthiness of `todoData.id` makes `id = 0` behave
like an absent id, hence the explicit `i = 0` cases. -/
def syncStep (uid : String) (now : Int) (st : SyncState) (e : SyncTodoEntry) :
    Except String SyncState :=
  if e.is_deleted then
    match e.id with
    | some i =>
      if i = 0 then Except.ok st
      else Except.ok { st with db := deleteTodoRow st.db i uid }
    | none => Except.ok st
  else
    match e.id with
    | some i =>
      if i = 0 then Except.ok (createStep uid now st e)
      else
        match findTodo st.db i uid with
        | none =>
          Except.error ("Todo with id " ++ toString i ++ " not found or access denied")
        | some row =>
          if row.updated_at > e.client_updated_at then
            Except.ok { st with conflicts := st.conflicts ++ [row] }
          else
            Except.ok
              { db := updateTodoRows st.db i uid e now,
                synced := st.synced ++ [applyUpdateFields row e now],
                conflicts := st.conflicts }
    | none => Except.ok (createStep uid now st e)

/-- The whole per-item loop.  A thrown error stops the loop; the store keeps
whatever the earlier iterations already committed (no rollback). -/
def processTodos (uid : String) (now : Int) (st : SyncState) :
    List SyncTodoEntry → SyncState × Option String
  | [] => (st, none)
  | e :: rest =>
    match syncStep uid now st e with
    | Except.ok st2 => processTodos uid now st2 rest
    | Except.error msg => (st, some msg)

/-- `input.todos.map(t => t.category_id).filter(id => id !== null && id !== undefined)`. -/
def referencedCategoryIds (input : SyncTodosInput) : List Nat :=
  input.todos.filterMap (fun e => e.category_id.getD none)

/-- The `syncTodos` handler: user existence check, whole-batch category
check, then the per-item loop.  Returns the final store and either
`(synced, conflicts)` or the thrown error message. -/
def syncTodos (db : DB) (now : Int) (input : SyncTodosInput) :
    DB × Except String (List Todo × List Todo) :=
  if input.user_id ∈ db.users then
    match (referencedCategoryIds input).find? (fun c => !(db.categories.contains c)) with
    | some c => (db, Except.error ("Category with id " ++ toString c ++ " not found"))
    | none =>
      match processTodos input.user_id now ⟨db, [], []⟩ input.todos with
      | (st, none) => (st.db, Except.ok (st.synced, st.conflicts))
      | (st, some msg) => (st.db, Except.error msg)
  else
    (db, Except.error ("User with id " ++ input.user_id ++ " not found"))

/-- The parsed argument of the `getTodos` handler (`getTodosInputSchema`). -/
structure GetTodosInput where
  user_id : String
  category_id : Option Nat := none
  is_completed : Option Bool := none
  due_before : Option Int := none
  due_after : Option Int := none
  priority : Option Priority := none
  last_synced_after : Option Int := none
deriving DecidableEq, Repr

/-- A filter that is only pushed onto the conditions array when the input
field is present. -/
def optFilter {α : Type} (o : Option α) (p : α → Bool) : Bool :=
  match o with
  | none => true
  | some x => p x

/-- SQL `lte(col, x)` on a nullable column: NULL compares to nothing. -/
def lteNullable (d : Option Int) (x : Int) : Bool :=
  match d with
  | none => false
  | some v => decide (v ≤ x)

/-- SQL `gte(col, x)` on a nullable column: NULL compares to nothing. -/
def gteNullable (d : Option Int) (x : Int) : Bool :=
  match d with
  | none => false
  | some v => decide (x ≤ v)

/-- The conjunction of the conditions array built by `getTodos`, in the
order the handler pushes them. -/
def matchesFilters (input : GetTodosInput) (t : Todo) : Bool :=
  decide (t.user_id = input.user_id)
  && optFilter input.category_id (fun c => decide (t.category_id = some c))
  && optFilter input.is_completed (fun b => decide (t.is_completed = b))
  && optFilter input.due_before (fun x => lteNullable t.due_date x)
  && optFilter input.due_after (fun x => gteNullable t.due_date x)
  && optFilter input.priority (fun p => decide (t.priority = p))
  && optFilter input.last_synced_after (fun x => decide (x ≤ t.client_updated_at))

/-- The `getTodos` handler: a single filtered SELECT, no user-existence
check, cannot throw. -/
def getTodos (db : DB) (input : GetTodosInput) : List Todo :=
  db.todos.filter (matchesFilters input)

/-- The parsed argument of the direct `updateTodo` handler
(`updateTodoInputSchema`); the row is addressed by `id` alone, the input
carries no user identity. -/
structure UpdateTodoInput where
  id : Nat
  category_id : Option (Option Nat) := none
  title : Option String := none
  description : Option (Option String) := none
  is_completed : Option Bool := none
  due_date : Option (Option Int) := none
  priority : Option Priority := none
  client_updated_at : Option Int := none
deriving DecidableEq, Repr

/-- `SELECT * FROM todos WHERE id = i`, first row — no user scoping. -/
def findTodoById (db : DB) (i : Nat) : Option Todo :=
  db.todos.find? (fun t => decide (t.id = i))

/-- The update object built by `updateTodo`: only the provided fields, plus
`updated_at := now`. -/
def applyDirectUpdate (row : Todo) (input : UpdateTodoInput) (now : Int) : Todo :=
  { row with
    updated_at := now,
    title := input.title.getD row.title,
    description := input.description.getD row.description,
    is_completed := input.is_completed.getD row.is_completed,
    due_date := input.due_date.getD row.due_date,
    priority := input.priority.getD row.priority,
    category_id := input.category_id.getD row.category_id,
    client_updated_at := input.client_updated_at.getD row.client_updated_at }

/-- The write phase of `updateTodo` once the row was found:
`UPDATE todos SET ... WHERE id = input.id RETURNING *`, first row. -/
def updateTodoApply (db : DB) (now : Int) (input : UpdateTodoInput) (row : Todo) :
    DB × Except String Todo :=
  ({ db with
     todos := db.todos.map
       (fun t => if t.id = input.id then applyDirectUpdate t input now else t) },
   Except.ok (applyDirectUpdate row input now))

/-- The direct `updateTodo` handler: existence check by `id` alone (no
ownership check), optional category validation, then the update. -/
def updateTodo (db : DB) (now : Int) (input : UpdateTodoInput) : DB × Except String Todo :=
  match findTodoById db input.id with
  | none => (db, Except.error ("Todo with ID " ++ toString input.id ++ " not found"))
  | some row =>
    match input.category_id with
    | some (some c) =>
      if db.categories.contains c then updateTodoApply db now input row
      else (db, Except.error ("Category with ID " ++ toString c ++ " not found"))
    | _ => updateTodoApply db now input row

/-! ### Basic facts about the row operations -/

@[simp]
theorem applyUpdateFields_id (row : Todo) (e : SyncTodoEntry) (now : Int) :
    (applyUpdateFields row e now).id = row.id := rfl

@[simp]
theorem applyUpdateFields_user_id (row : Todo) (e : SyncTodoEntry) (now : Int) :
    (applyUpdateFields row e now).user_id = row.user_id := rfl

theorem findTodo_eq_some (db : DB) (i : Nat) (uid : String) (t : Todo)
    (h : findTodo db i uid = some t) : t.id = i ∧ t.user_id = uid ∧ t ∈ db.todos := by
  have hp := List.find?_some h
  have hm := List.mem_of_find?_eq_some h
  simp only [decide_eq_true_eq] at hp
  exact ⟨hp.1, hp.2, hm⟩

theorem findTodo_updateTodoRows (db : DB) (i j : Nat) (uid : String)
    (e : SyncTodoEntry) (now : Int) :
    findTodo (updateTodoRows db i uid e now) j uid =
      (findTodo db j uid).map
        (fun t => if t.id = i ∧ t.user_id = uid then applyUpdateFields t e now else t) := by
  unfold findTodo updateTodoRows
  rw [List.find?_map]
  have hfg : ((fun t => decide (t.id = j ∧ t.user_id = uid)) ∘ fun t =>
      if t.id = i ∧ t.user_id = uid then applyUpdateFields t e now else t) =
      (fun t => decide (t.id = j ∧ t.user_id = uid)) := by
    funext t
    by_cases hc : t.id = i ∧ t.user_id = uid
    · simp [hc]
    · simp [hc]
  rw [hfg]

theorem findTodo_updateTodoRows_ne (db : DB) (i j : Nat) (uid : String)
    (e : SyncTodoEntry) (now : Int) (hne : j ≠ i) :
    findTodo (updateTodoRows db i uid e now) j uid = findTodo db j uid := by
  rw [findTodo_updateTodoRows]
  cases hfind : findTodo db j uid with
  | none => rfl
  | some t =>
    obtain ⟨hid, -, -⟩ := findTodo_eq_some db j uid t hfind
    have : ¬ (t.id = i ∧ t.user_id = uid) := fun hc => hne (hid ▸ hc.1 ▸ rfl)
    simp [this]

theorem findTodo_updateTodoRows_self (db : DB) (i : Nat) (uid : String)
    (e : SyncTodoEntry) (now : Int) (row : Todo) (h : findTodo db i uid = some row) :
    findTodo (updateTodoRows db i uid e now) i uid =
      some (applyUpdateFields row e now) := by
  rw [findTodo_updateTodoRows, h]
  obtain ⟨hid, huid, -⟩ := findTodo_eq_some db i uid row h
  simp [hid, huid]

theorem findTodo_deleteTodoRow_self (db : DB) (i : Nat) (uid : String) :
    findTodo (deleteTodoRow db i uid) i uid = none := by
  unfold findTodo deleteTodoRow
  simp only [List.find?_eq_none]
  intro t ht
  have := List.of_mem_filter ht
  simp only [Bool.not_eq_true', decide_eq_false_iff_not] at this
  simpa using this

theorem deleteTodoRow_of_absent (db : DB) (i : Nat) (uid : String)
    (h : findTodo db i uid = none) : deleteTodoRow db i uid = db := by
  unfold findTodo at h
  rw [List.find?_eq_none] at h
  unfold deleteTodoRow
  have : db.todos.filter (fun t => !decide (t.id = i ∧ t.user_id = uid)) = db.todos := by
    rw [List.filter_eq_self]
    intro t ht
    have := h t ht
    simp only [decide_eq_true_eq] at this
    simp only [Bool.not_eq_true', decide_eq_false_iff_not]
    tauto
  rw [this]

/-! ### What a sync step can and cannot touch -/

/-- The rows of the store that belong to users other than `uid`. -/
def othersOf (uid : String) (l : List Todo) : List Todo :=
  l.filter (fun t => !decide (t.user_id = uid))

theorem othersOf_deleteTodoRow (db : DB) (i : Nat) (uid : String) :
    othersOf uid (deleteTodoRow db i uid).todos = othersOf uid db.todos := by
  unfold othersOf deleteTodoRow
  rw [List.filter_filter]
  have : (fun t : Todo => !decide (t.user_id = uid) && !decide (t.id = i ∧ t.user_id = uid)) =
      (fun t : Todo => !decide (t.user_id = uid)) := by
    funext t
    by_cases hu : t.user_id = uid
    · simp [hu]
    · simp [hu]
  rw [this]

theorem othersOf_updateTodoRows (db : DB) (i : Nat) (uid : String)
    (e : SyncTodoEntry) (now : Int) :
    othersOf uid (updateTodoRows db i uid e now).todos = othersOf uid db.todos := by
  unfold othersOf updateTodoRows
  rw [List.filter_map]
  have hq : ((fun t : Todo => !decide (t.user_id = uid)) ∘ fun t =>
      if t.id = i ∧ t.user_id = uid then applyUpdateFields t e now else t) =
      (fun t : Todo => !decide (t.user_id = uid)) := by
    funext t
    by_cases hc : t.id = i ∧ t.user_id = uid
    · simp [hc]
    · simp [hc]
  rw [hq]
  have : ∀ t ∈ db.todos.filter (fun t : Todo => !decide (t.user_id = uid)),
      (if t.id = i ∧ t.user_id = uid then applyUpdateFields t e now else t) = t := by
    intro t ht
    have hu := List.of_mem_filter ht
    simp only [Bool.not_eq_true', decide_eq_false_iff_not] at hu
    have : ¬ (t.id = i ∧ t.user_id = uid) := fun hc => hu hc.2
    simp [this]
  rw [List.map_congr_left this, List.map_id']

theorem othersOf_append_own (uid : String) (l : List Todo) (t : Todo)
    (h : t.user_id = uid) : othersOf uid (l ++ [t]) = othersOf uid l := by
  unfold othersOf
  rw [List.filter_append]
  have : [t].filter (fun t : Todo => !decide (t.user_id = uid)) = [] := by
    simp [h]
  rw [this, List.append_nil]

/-- A successful step never touches `users`, `categories`, or rows of other
users, and only ever appends to the two output arrays. -/
theorem syncStep_ok_preserves (uid : String) (now : Int) (st st2 : SyncState)
    (e : SyncTodoEntry) (h : syncStep uid now st e = Except.ok st2) :
    st2.db.users = st.db.users ∧ st2.db.categories = st.db.categories ∧
    othersOf uid st2.db.todos = othersOf uid st.db.todos ∧
    ∃ s' c', st2.synced = st.synced ++ s' ∧ st2.conflicts = st.conflicts ++ c' := by
  unfold syncStep at h
  by_cases hdel : e.is_deleted
  · simp only [hdel, if_true] at h
    cases hid : e.id with
    | none =>
      rw [hid] at h
      injection h with h
      subst h
      exact ⟨rfl, rfl, rfl, [], [], by simp, by simp⟩
    | some i =>
      rw [hid] at h
      by_cases hz : i = 0
      · simp only [hz, if_true] at h
        injection h with h
        subst h
        exact ⟨rfl, rfl, rfl, [], [], by simp, by simp⟩
      · simp only [hz, if_false] at h
        injection h with h
        subst h
        exact ⟨rfl, rfl, othersOf_deleteTodoRow st.db i uid, [], [], by simp, by simp⟩
  · simp only [hdel, if_false] at h
    cases hid : e.id with
    | none =>
      rw [hid] at h
      injection h with h
      subst h
      refine ⟨rfl, rfl, ?_, [newTodoOf st.db.nextId uid e now], [], rfl, by simp [createStep]⟩
      exact othersOf_append_own uid st.db.todos _ rfl
    | some i =>
      rw [hid] at h
      by_cases hz : i = 0
      · simp only [hz, if_true] at h
        injection h with h
        subst h
        refine ⟨rfl, rfl, ?_, [newTodoOf st.db.nextId uid e now], [], rfl, by simp [createStep]⟩
        exact othersOf_append_own uid st.db.todos _ rfl
      · simp only [hz, if_false] at h
        cases hfind : findTodo st.db i uid with
        | none =>
          rw [hfind] at h
          cases h
        | some row =>
          rw [hfind] at h
          by_cases hconf : row.updated_at > e.client_updated_at
          · simp only [hconf, if_true] at h
            injection h with h
            subst h
            exact ⟨rfl, rfl, rfl, [], [row], by simp, rfl⟩
          · simp only [hconf, if_false] at h
            injection h with h
            subst h
            exact ⟨rfl, rfl, othersOf_updateTodoRows st.db i uid e now,
              [applyUpdateFields row e now], [], rfl, by simp⟩

/-- The loop as a whole never touches `users`, `categories`, or rows of other
users, and only appends to the output arrays — whether it finishes or throws. -/
theorem processTodos_preserves (uid : String) (now : Int) :
    ∀ (es : List SyncTodoEntry) (st : SyncState),
    ((processTodos uid now st es).1).db.users = st.db.users ∧
    ((processTodos uid now st es).1).db.categories = st.db.categories ∧
    othersOf uid ((processTodos uid now st es).1).db.todos = othersOf uid st.db.todos ∧
    ∃ s' c', ((processTodos uid now st es).1).synced = st.synced ++ s' ∧
      ((processTodos uid now st es).1).conflicts = st.conflicts ++ c'
  | [], st => ⟨rfl, rfl, rfl, [], [], (List.append_nil _).symm, (List.append_nil _).symm⟩
  | e :: rest, st => by
    unfold processTodos
    cases hstep : syncStep uid now st e with
    | error msg => exact ⟨rfl, rfl, rfl, [], [], by simp, by simp⟩
    | ok st2 =>
      obtain ⟨hu, hc, ho, s1, c1, hs1, hc1⟩ := syncStep_ok_preserves uid now st st2 e hstep
      obtain ⟨hu2, hc2, ho2, s2, c2, hs2, hc2'⟩ := processTodos_preserves uid now rest st2
      refine ⟨hu2.trans hu, hc2.trans hc, ho2.trans ho, s1 ++ s2, c1 ++ c2, ?_, ?_⟩
      · rw [hs2, hs1, List.append_assoc]
      · rw [hc2', hc1, List.append_assoc]

/-- A step that throws aborts the loop at once: the remaining entries are
not processed and the state is the one reached so far. -/
theorem processTodos_abort (uid : String) (now : Int) (st : SyncState)
    (e : SyncTodoEntry) (rest : List SyncTodoEntry) (msg : String)
    (h : syncStep uid now st e = Except.error msg) :
    processTodos uid now st (e :: rest) = (st, some msg) := by
  unfold processTodos
  rw [h]

/-! ### Batches made of non-conflicting updates -/

/-- The store reached by applying every update entry of a batch in order
(the write part of the non-conflicting update branch). -/
def foldUpdates (uid : String) (now : Int) : DB → List SyncTodoEntry → DB
  | db, [] => db
  | db, e :: rest =>
    match e.id with
    | some i => foldUpdates uid now (updateTodoRows db i uid e now) rest
    | none => foldUpdates uid now db rest

theorem foldUpdates_users (uid : String) (now : Int) :
    ∀ (es : List SyncTodoEntry) (db : DB),
    (foldUpdates uid now db es).users = db.users ∧
    (foldUpdates uid now db es).categories = db.categories
  | [], db => ⟨rfl, rfl⟩
  | e :: rest, db => by
    unfold foldUpdates
    cases e.id with
    | some i => exact foldUpdates_users uid now rest (updateTodoRows db i uid e now)
    | none => exact foldUpdates_users uid now rest db

theorem foldUpdates_cons (uid : String) (now : Int) (db : DB)
    (e : SyncTodoEntry) (rest : List SyncTodoEntry) :
    foldUpdates uid now db (e :: rest) =
      match e.id with
      | some i => foldUpdates uid now (updateTodoRows db i uid e now) rest
      | none => foldUpdates uid now db rest := rfl

theorem processTodos_cons (uid : String) (now : Int) (st : SyncState)
    (e : SyncTodoEntry) (rest : List SyncTodoEntry) :
    processTodos uid now st (e :: rest) =
      match syncStep uid now st e with
      | Except.ok st2 => processTodos uid now st2 rest
      | Except.error msg => (st, some msg) := rfl

theorem findTodo_foldUpdates_not_mem (uid : String) (now : Int) :
    ∀ (es : List SyncTodoEntry) (db : DB) (i : Nat),
    (∀ e ∈ es, e.id ≠ some i) →
    findTodo (foldUpdates uid now db es) i uid = findTodo db i uid
  | [], _, _, _ => rfl
  | e :: rest, db, i, h => by
    have hrest : ∀ e' ∈ rest, e'.id ≠ some i :=
      fun e' he' => h e' (List.mem_cons_of_mem e he')
    rw [foldUpdates_cons]
    cases hid : e.id with
    | none =>
      show findTodo (foldUpdates uid now db rest) i uid = findTodo db i uid
      exact findTodo_foldUpdates_not_mem uid now rest db i hrest
    | some j =>
      have hji : j ≠ i := fun hctr => h e (List.mem_cons_self e rest) (by rw [hid, hctr])
      show findTodo (foldUpdates uid now (updateTodoRows db j uid e now) rest) i uid =
        findTodo db i uid
      rw [findTodo_foldUpdates_not_mem uid now rest _ i hrest]
      exact findTodo_updateTodoRows_ne db j i uid e now (Ne.symm hji)

/-- Running the loop on a batch of update entries with pairwise-distinct ids
whose target rows all exist and all have `updated_at ≤ client_updated_at`:
every entry is applied, nothing conflicts, nothing errors, and `synced`
collects exactly the rewritten rows, which are the rows' state in the final
store. -/
theorem processTodos_all_updates (uid : String) (now : Int) :
    ∀ (es : List SyncTodoEntry) (db : DB) (s c : List Todo),
    (∀ e ∈ es, e.is_deleted = false ∧ ∃ i, e.id = some i ∧ i ≠ 0) →
    (es.filterMap (fun e => e.id)).Nodup →
    (∀ e ∈ es, ∀ i, e.id = some i →
      ∃ row, findTodo db i uid = some row ∧ row.updated_at ≤ e.client_updated_at) →
    ∃ s2, processTodos uid now ⟨db, s, c⟩ es =
        (⟨foldUpdates uid now db es, s ++ s2, c⟩, none) ∧
      s2.length = es.length ∧
      (∀ r ∈ s2, findTodo (foldUpdates uid now db es) r.id uid = some r ∧
        r.updated_at = now ∧ r.last_synced_at = some now) ∧
      (∀ e ∈ es, ∀ i, e.id = some i →
        ∃ row2, findTodo (foldUpdates uid now db es) i uid = some row2 ∧
          row2.updated_at = now)
  | [], db, s, c, _, _, _ =>
    ⟨[], by simp [processTodos, foldUpdates], rfl, by simp, by simp⟩
  | e :: rest, db, s, c, hall, hnodup, hfound => by
    obtain ⟨hdel, i, hid, hiz⟩ := hall e (List.mem_cons_self e rest)
    obtain ⟨row, hrow, hle⟩ := hfound e (List.mem_cons_self e rest) i hid
    have hnc : ¬ row.updated_at > e.client_updated_at := not_lt.mpr hle
    have hstep : syncStep uid now ⟨db, s, c⟩ e =
        Except.ok ⟨updateTodoRows db i uid e now,
          s ++ [applyUpdateFields row e now], c⟩ := by
      unfold syncStep
      simp only [hdel, hid, hiz, if_false, Bool.false_eq_true]
      rw [show findTodo (SyncState.mk db s c).db i uid = some row from hrow]
      simp only [hnc, if_false]
    have hrestid : ∀ e' ∈ rest, e'.id ≠ some i := by
      intro e' he' hctr
      have hmem : i ∈ rest.filterMap (fun e => e.id) :=
        List.mem_filterMap.mpr ⟨e', he', hctr⟩
      have : (List.filterMap (fun e => e.id) (e :: rest)).Nodup := hnodup
      rw [List.filterMap_cons, hid] at this
      exact (List.nodup_cons.mp this).1 hmem
    have hnodup' : (rest.filterMap (fun e => e.id)).Nodup := by
      have : (List.filterMap (fun e => e.id) (e :: rest)).Nodup := hnodup
      rw [List.filterMap_cons, hid] at this
      exact (List.nodup_cons.mp this).2
    have hfound' : ∀ e' ∈ rest, ∀ j, e'.id = some j →
        ∃ row', findTodo (updateTodoRows db i uid e now) j uid = some row' ∧
          row'.updated_at ≤ e'.client_updated_at := by
      intro e' he' j hj
      obtain ⟨row', hrow', hle'⟩ := hfound e' (List.mem_cons_of_mem e he') j hj
      have hji : j ≠ i := fun hctr => hrestid e' he' (by rw [hj, hctr])
      exact ⟨row', by rw [findTodo_updateTodoRows_ne db i j uid e now hji]; exact hrow', hle'⟩
    obtain ⟨s2', hproc, hlen, hmem, hper⟩ :=
      processTodos_all_updates uid now rest (updateTodoRows db i uid e now)
        (s ++ [applyUpdateFields row e now]) c
        (fun e' he' => hall e' (List.mem_cons_of_mem e he')) hnodup' hfound'
    have hfold : foldUpdates uid now db (e :: rest) =
        foldUpdates uid now (updateTodoRows db i uid e now) rest := by
      rw [foldUpdates_cons, hid]
    have hr1id : (applyUpdateFields row e now).id = i := by
      rw [applyUpdateFields_id]
      exact (findTodo_eq_some db i uid row hrow).1
    have hr1find : findTodo (foldUpdates uid now (updateTodoRows db i uid e now) rest)
        i uid = some (applyUpdateFields row e now) := by
      rw [findTodo_foldUpdates_not_mem uid now rest _ i hrestid]
      exact findTodo_updateTodoRows_self db i uid e now row hrow
    have happ : (s ++ [applyUpdateFields row e now]) ++ s2' =
        s ++ (applyUpdateFields row e now :: s2') := by
      rw [List.append_assoc, List.singleton_append]
    refine ⟨applyUpdateFields row e now :: s2', ?_, ?_, ?_, ?_⟩
    · rw [processTodos_cons, hstep, hfold, ← happ]
      exact hproc
    · simp [hlen]
    · intro r hr
      rcases List.mem_cons.mp hr with hr1 | hr2
      · subst hr1
        rw [hfold, hr1id]
        exact ⟨hr1find, rfl, rfl⟩
      · rw [hfold]
        exact hmem r hr2
    · intro e' he' j hj
      rcases List.mem_cons.mp he' with he1 | he2
      · rw [he1] at hj
        have : j = i := by
          rw [hid] at hj
          exact (Option.some.inj hj).symm
        subst this
        rw [hfold]
        exact ⟨applyUpdateFields row e now, hr1find, rfl⟩
      · rw [hfold]
        exact hper e' he2 j hj

/-- When both pre-validations pass, `syncTodos` is the loop. -/
theorem syncTodos_run (db : DB) (now : Int) (input : SyncTodosInput)
    (huser : input.user_id ∈ db.users)
    (hcat : ∀ c ∈ referencedCategoryIds input, db.categories.contains c) :
    syncTodos db now input =
      match processTodos input.user_id now ⟨db, [], []⟩ input.todos with
      | (st, none) => (st.db, Except.ok (st.synced, st.conflicts))
      | (st, some msg) => (st.db, Except.error msg) := by
  unfold syncTodos
  rw [if_pos huser]
  have hnone : (referencedCategoryIds input).find? (fun c => !(db.categories.contains c)) =
      none := by
    rw [List.find?_eq_none]
    intro c hc
    rw [hcat c hc]
    simp
  rw [hnone]

instance exceptDecEq {ε α : Type} [DecidableEq ε] [DecidableEq α] :
    DecidableEq (Except ε α)
  | Except.ok x, Except.ok y =>
    if h : x = y then isTrue (by rw [h]) else isFalse (fun hc => h (Except.ok.inj hc))
  | Except.ok _, Except.error _ => isFalse (fun hc => Except.noConfusion hc)
  | Except.error _, Except.ok _ => isFalse (fun hc => Except.noConfusion hc)
  | Except.error x, Except.error y =>
    if h : x = y then isTrue (by rw [h]) else isFalse (fun hc => h (Except.error.inj hc))

/-! ### Sample store used by the witnesses and counterexamples -/

def wTodo : Todo :=
  { id := 1, user_id := "u1", category_id := none, title := "a",
    description := none, is_completed := false, due_date := none,
    priority := Priority.medium, created_at := 0, updated_at := 3,
    last_synced_at := none, client_updated_at := 0 }

def wDB : DB := { users := ["u1", "u2"], categories := [5], todos := [wTodo], nextId := 2 }

def wEntry : SyncTodoEntry := { id := some 1, title := "b", client_updated_at := 5 }

/-! ### The claims -/

/-- C1: for a batch entry with a server id and `is_deleted = false` whose row
exists under `(id, user_id)`: if the server row's `updated_at` is strictly
greater than the entry's `client_updated_at` the current server row is
appended to `conflicts` and the store is untouched; otherwise the entry's
fields are applied, `updated_at` and `last_synced_at` are advanced to the
server time, `client_updated_at` is persisted as given, and the updated row
is appended to `synced`.  Equal timestamps fall in the second case: the
client wins ties. -/
theorem claim_C1_update_conflict_rule (uid : String) (now : Int) (st : SyncState)
    (e : SyncTodoEntry) (i : Nat) (row : Todo)
    (hdel : e.is_deleted = false) (hid : e.id = some i) (hiz : i ≠ 0)
    (hrow : findTodo st.db i uid = some row) :
    (row.updated_at > e.client_updated_at →
      syncStep uid now st e = Except.ok { st with conflicts := st.conflicts ++ [row] }) ∧
    (row.updated_at ≤ e.client_updated_at →
      syncStep uid now st e = Except.ok
        { db := updateTodoRows st.db i uid e now,
          synced := st.synced ++ [applyUpdateFields row e now],
          conflicts := st.conflicts } ∧
      (applyUpdateFields row e now).updated_at = now ∧
      (applyUpdateFields row e now).last_synced_at = some now ∧
      (applyUpdateFields row e now).client_updated_at = e.client_updated_at ∧
      (applyUpdateFields row e now).title = e.title ∧
      (applyUpdateFields row e now).is_completed = e.is_completed ∧
      (applyUpdateFields row e now).priority = e.priority ∧
      (applyUpdateFields row e now).category_id = e.category_id.getD row.category_id ∧
      findTodo (updateTodoRows st.db i uid e now) i uid =
        some (applyUpdateFields row e now)) := by
  constructor
  · intro hconf
    unfold syncStep
    simp only [hdel, hid, hiz, if_false, Bool.false_eq_true]
    rw [show findTodo st.db i uid = some row from hrow]
    simp only [hconf, if_true]
  · intro hle
    have hnc : ¬ row.updated_at > e.client_updated_at := not_lt.mpr hle
    refine ⟨?_, rfl, rfl, rfl, rfl, rfl, rfl, rfl,
      findTodo_updateTodoRows_self st.db i uid e now row hrow⟩
    unfold syncStep
    simp only [hdel, hid, hiz, if_false, Bool.false_eq_true]
    rw [show findTodo st.db i uid = some row from hrow]
    simp only [hnc, if_false]

theorem claim_C1_witness :
    syncStep "u1" 9 ⟨wDB, [], []⟩ wEntry = Except.ok
      { db := updateTodoRows wDB 1 "u1" wEntry 9,
        synced := [] ++ [applyUpdateFields wTodo wEntry 9],
        conflicts := [] } :=
  ((claim_C1_update_conflict_rule "u1" 9 ⟨wDB, [], []⟩ wEntry 1 wTodo rfl rfl
    (by decide) (by decide)).2 (by decide)).1

/-- C2: `syncTodos` fails the whole call with a not-found error before any
write when the user does not exist or some non-null referenced category does
not exist — in both cases the returned store is exactly the input store. -/
theorem claim_C2_prevalidation (db : DB) (now : Int) (input : SyncTodosInput) :
    (input.user_id ∉ db.users →
      syncTodos db now input =
        (db, Except.error ("User with id " ++ input.user_id ++ " not found"))) ∧
    (∀ c ∈ referencedCategoryIds input, ¬ db.categories.contains c = true →
      ∃ msg, syncTodos db now input = (db, Except.error msg)) := by
  constructor
  · intro huser
    unfold syncTodos
    rw [if_neg huser]
  · intro c hc hmiss
    unfold syncTodos
    by_cases huser : input.user_id ∈ db.users
    · rw [if_pos huser]
      cases hfind : (referencedCategoryIds input).find? (fun c => !(db.categories.contains c)) with
      | none =>
        rw [List.find?_eq_none] at hfind
        exact absurd (by simpa using hfind c hc) hmiss
      | some c' =>
        exact ⟨"Category with id " ++ toString c' ++ " not found", rfl⟩
    · rw [if_neg huser]
      exact ⟨"User with id " ++ input.user_id ++ " not found", rfl⟩

theorem claim_C2_witness :
    syncTodos wDB 9 { user_id := "zz", todos := [wEntry] } =
      (wDB, Except.error ("User with id " ++ "zz" ++ " not found")) :=
  (claim_C2_prevalidation wDB 9 { user_id := "zz", todos := [wEntry] }).1 (by decide)

def wDelAbsent : SyncTodoEntry :=
  { id := some 9, title := "x", client_updated_at := 0, is_deleted := true }

/-- C3 counterexample: the claim requires a not-found/access-denied error
when a delete entry's id matches no row under the given ownership.  In the
store `wDB` no todo has id 9, yet the call returns `Except.ok` (an empty
successful batch), not an error: deletes of absent rows are silently
tolerated and the batch continues. -/
theorem claim_C3_counterexample :
    syncTodos wDB 9 { user_id := "u1", todos := [wDelAbsent] } =
      (wDB, Except.ok ([], [])) := by decide

/-- C3 (amended): for a batch entry with `is_deleted = true`: with no server
id it is a no-op; with a server id the rows matching `(id, user_id)` are
removed and the step always succeeds — when no such row exists the store is
left unchanged (a repeated delete is a silent no-op, not an error) — and
deleted entries are never appended to `synced` or `conflicts`. -/
theorem claim_C3_amended_delete_rule (uid : String) (now : Int) (st : SyncState)
    (e : SyncTodoEntry) (hdel : e.is_deleted = true) :
    (e.id = none → syncStep uid now st e = Except.ok st) ∧
    (∀ i, e.id = some i → i ≠ 0 →
      syncStep uid now st e = Except.ok { st with db := deleteTodoRow st.db i uid } ∧
      findTodo (deleteTodoRow st.db i uid) i uid = none ∧
      (findTodo st.db i uid = none → deleteTodoRow st.db i uid = st.db)) := by
  constructor
  · intro hid
    unfold syncStep
    simp only [hdel, hid, if_true]
  · intro i hid hiz
    refine ⟨?_, findTodo_deleteTodoRow_self st.db i uid,
      deleteTodoRow_of_absent st.db i uid⟩
    unfold syncStep
    simp only [hdel, hid, hiz, if_true, if_false]

def wDelExisting : SyncTodoEntry :=
  { id := some 1, title := "x", client_updated_at := 0, is_deleted := true }

theorem claim_C3_witness :
    syncStep "u1" 9 ⟨wDB, [], []⟩ wDelExisting =
      Except.ok { db := deleteTodoRow wDB 1 "u1", synced := [], conflicts := [] } :=
  ((claim_C3_amended_delete_rule "u1" 9 ⟨wDB, [], []⟩ wDelExisting rfl).2 1 rfl
    (by decide)).1

/-- C4 counterexample: the batch `[wEntry]` (an update of todo 1 carrying
`client_updated_at = 5`) is fully accepted by a first call at server time 10
(no conflicts).  Re-submitting the very same batch, unchanged, at server
time 20 yields a NON-empty conflicts list: the first call advanced the row's
`updated_at` to 10, and 10 > 5 now reads as a server-side change.  This
refutes the claim that such a re-sync always yields no conflicts. -/
theorem claim_C4_counterexample :
    (syncTodos wDB 10 { user_id := "u1", todos := [wEntry] }).2 =
      Except.ok ([applyUpdateFields wTodo wEntry 10], []) ∧
    (syncTodos ((syncTodos wDB 10 { user_id := "u1", todos := [wEntry] }).1) 20
        { user_id := "u1", todos := [wEntry] }).2 =
      Except.ok ([], [applyUpdateFields wTodo wEntry 10]) := by decide

/-- C4 (amended): idempotent re-sync holds only under a clock-side proviso.
For a batch of update entries with pairwise-distinct server ids whose rows
all exist under `(id, user_id)` and carry `updated_at ≤ client_updated_at`,
a first call at server time `now1` fully accepts the batch; re-submitting
the same batch with unchanged `client_updated_at` values yields an empty
conflicts list and returns the rows' current state in `synced` PROVIDED
each entry's `client_updated_at` is at least `now1` (otherwise the first
call's own write of `updated_at := now1` makes the re-sync conflict, as the
counterexample shows). -/
theorem claim_C4_amended_resync (uid : String) (now1 now2 : Int) (db : DB)
    (es : List SyncTodoEntry)
    (hall : ∀ e ∈ es, e.is_deleted = false ∧ ∃ i, e.id = some i ∧ i ≠ 0)
    (hnodup : (es.filterMap (fun e => e.id)).Nodup)
    (hfound : ∀ e ∈ es, ∀ i, e.id = some i →
      ∃ row, findTodo db i uid = some row ∧ row.updated_at ≤ e.client_updated_at)
    (huser : uid ∈ db.users)
    (hcat : ∀ c ∈ referencedCategoryIds ⟨uid, es, none⟩, db.categories.contains c)
    (hresync : ∀ e ∈ es, now1 ≤ e.client_updated_at) :
    ∃ s1 s2 db1 db2,
      syncTodos db now1 ⟨uid, es, none⟩ = (db1, Except.ok (s1, [])) ∧
      syncTodos db1 now2 ⟨uid, es, none⟩ = (db2, Except.ok (s2, [])) ∧
      s2.length = es.length ∧
      ∀ r ∈ s2, findTodo db2 r.id uid = some r := by
  obtain ⟨s1, hproc1, hlen1, hmem1, hper1⟩ :=
    processTodos_all_updates uid now1 es db [] [] hall hnodup hfound
  have hrun1 : syncTodos db now1 ⟨uid, es, none⟩ =
      (foldUpdates uid now1 db es, Except.ok ([] ++ s1, [])) := by
    rw [syncTodos_run db now1 ⟨uid, es, none⟩ huser hcat, hproc1]
  have huser1 : uid ∈ (foldUpdates uid now1 db es).users := by
    rw [(foldUpdates_users uid now1 es db).1]
    exact huser
  have hcat1 : ∀ c ∈ referencedCategoryIds ⟨uid, es, none⟩,
      (foldUpdates uid now1 db es).categories.contains c := by
    intro c hc
    rw [(foldUpdates_users uid now1 es db).2]
    exact hcat c hc
  have hfound1 : ∀ e ∈ es, ∀ i, e.id = some i →
      ∃ row, findTodo (foldUpdates uid now1 db es) i uid = some row ∧
        row.updated_at ≤ e.client_updated_at := by
    intro e he i hi
    obtain ⟨row2, hrow2, hupd⟩ := hper1 e he i hi
    refine ⟨row2, hrow2, ?_⟩
    rw [hupd]
    exact hresync e he
  obtain ⟨s2, hproc2, hlen2, hmem2, hper2⟩ :=
    processTodos_all_updates uid now2 es (foldUpdates uid now1 db es) [] []
      hall hnodup hfound1
  refine ⟨[] ++ s1, [] ++ s2, foldUpdates uid now1 db es,
    foldUpdates uid now2 (foldUpdates uid now1 db es) es, hrun1, ?_, ?_, ?_⟩
  · rw [syncTodos_run (foldUpdates uid now1 db es) now2 ⟨uid, es, none⟩ huser1 hcat1,
      hproc2]
  · simpa using hlen2
  · intro r hr
    exact (hmem2 r (by simpa using hr)).1

theorem claim_C4_witness :
    ∃ s1 s2 db1 db2,
      syncTodos wDB 5 ⟨"u1", [wEntry], none⟩ = (db1, Except.ok (s1, [])) ∧
      syncTodos db1 20 ⟨"u1", [wEntry], none⟩ = (db2, Except.ok (s2, [])) ∧
      s2.length = [wEntry].length ∧
      ∀ r ∈ s2, findTodo db2 r.id "u1" = some r :=
  claim_C4_amended_resync "u1" 5 20 wDB [wEntry]
    (by
      intro e he
      rw [List.mem_singleton] at he
      subst he
      exact ⟨rfl, 1, rfl, by decide⟩)
    (by decide)
    (by
      intro e he i hi
      rw [List.mem_singleton] at he
      subst he
      have h1 : (1 : Nat) = i := Option.some.inj hi
      subst h1
      exact ⟨wTodo, by decide, by decide⟩)
    (by decide)
    (by decide)
    (by
      intro e he
      rw [List.mem_singleton] at he
      subst he
      decide)

/-- C5: an update entry whose id has no row under `(id, user_id)` — whether
the id belongs to another user's row or to no row at all, the scoped lookup
is `none` in both cases, so they are indistinguishable — makes the loop stop
at once with the single not-found/access-denied error, leaving the state as
it stood and ignoring the rest of the batch; and no call, whatever its
batch, ever changes a row belonging to a user other than the caller. -/
theorem claim_C5_ownership_isolation (uid : String) (now : Int) :
    (∀ (st : SyncState) (e : SyncTodoEntry) (i : Nat) (rest : List SyncTodoEntry),
      e.is_deleted = false → e.id = some i → i ≠ 0 → findTodo st.db i uid = none →
      processTodos uid now st (e :: rest) =
        (st, some ("Todo with id " ++ toString i ++ " not found or access denied"))) ∧
    (∀ (st : SyncState) (es : List SyncTodoEntry),
      othersOf uid ((processTodos uid now st es).1).db.todos =
        othersOf uid st.db.todos) ∧
    (∀ (db : DB) (input : SyncTodosInput),
      othersOf input.user_id ((syncTodos db now input).1).todos =
        othersOf input.user_id db.todos) := by
  refine ⟨?_, ?_, ?_⟩
  · intro st e i rest hdel hid hiz hnone
    have hstep : syncStep uid now st e = Except.error
        ("Todo with id " ++ toString i ++ " not found or access denied") := by
      unfold syncStep
      simp only [hdel, hid, hiz, if_false, Bool.false_eq_true]
      rw [show findTodo st.db i uid = none from hnone]
    exact processTodos_abort uid now st e rest _ hstep
  · intro st es
    exact (processTodos_preserves uid now es st).2.2.1
  · intro db input
    unfold syncTodos
    by_cases huser : input.user_id ∈ db.users
    · rw [if_pos huser]
      cases hfind : (referencedCategoryIds input).find?
          (fun c => !(db.categories.contains c)) with
      | some c => rfl
      | none =>
        have hpres := (processTodos_preserves input.user_id now input.todos
          ⟨db, [], []⟩).2.2.1
        cases hp : processTodos input.user_id now ⟨db, [], []⟩ input.todos with
        | mk st err =>
          rw [hp] at hpres
          cases err with
          | none => simpa using hpres
          | some msg => simpa using hpres
    · rw [if_neg huser]

theorem claim_C5_witness :
    processTodos "u2" 9 ⟨wDB, [], []⟩ [wEntry] =
      (⟨wDB, [], []⟩,
        some ("Todo with id " ++ toString 1 ++ " not found or access denied")) :=
  (claim_C5_ownership_isolation "u2" 9).1 ⟨wDB, [], []⟩ wEntry 1 [] rfl rfl
    (by decide) (by decide)

/-- C6: the two output arrays only ever grow by appending, so `synced`
preserves the batch's submission order; per entry, a delete contributes to
neither array, a conflicted update appends exactly the authoritative server
row (as read at detection time) to `conflicts`, a non-conflicting update
appends exactly the updated row to `synced`, and a create appends exactly
the freshly inserted row to `synced`. -/
theorem claim_C6_output_shape (uid : String) (now : Int) :
    (∀ (st : SyncState) (es : List SyncTodoEntry),
      ∃ s' c', ((processTodos uid now st es).1).synced = st.synced ++ s' ∧
        ((processTodos uid now st es).1).conflicts = st.conflicts ++ c') ∧
    (∀ (st st2 : SyncState) (e : SyncTodoEntry),
      syncStep uid now st e = Except.ok st2 →
      (e.is_deleted = true → st2.synced = st.synced ∧ st2.conflicts = st.conflicts) ∧
      (e.is_deleted = false → ∀ i, e.id = some i → i ≠ 0 →
        ∀ row, findTodo st.db i uid = some row →
          (row.updated_at > e.client_updated_at →
            st2.synced = st.synced ∧ st2.conflicts = st.conflicts ++ [row]) ∧
          (¬ row.updated_at > e.client_updated_at →
            st2.synced = st.synced ++ [applyUpdateFields row e now] ∧
            st2.conflicts = st.conflicts)) ∧
      (e.is_deleted = false → (e.id = none ∨ e.id = some 0) →
        st2.synced = st.synced ++ [newTodoOf st.db.nextId uid e now] ∧
        st2.conflicts = st.conflicts)) := by
  constructor
  · intro st es
    obtain ⟨-, -, -, s', c', hs, hc⟩ := processTodos_preserves uid now es st
    exact ⟨s', c', hs, hc⟩
  · intro st st2 e h
    refine ⟨?_, ?_, ?_⟩
    · intro hdel
      unfold syncStep at h
      simp only [hdel, if_true] at h
      cases hid : e.id with
      | none =>
        rw [hid] at h
        injection h with h
        subst h
        exact ⟨rfl, rfl⟩
      | some i =>
        rw [hid] at h
        by_cases hz : i = 0
        · simp only [hz, if_true] at h
          injection h with h
          subst h
          exact ⟨rfl, rfl⟩
        · simp only [hz, if_false] at h
          injection h with h
          subst h
          exact ⟨rfl, rfl⟩
    · intro hdel i hid hiz row hrow
      unfold syncStep at h
      simp only [hdel, hid, hiz, if_false, Bool.false_eq_true] at h
      rw [show findTodo st.db i uid = some row from hrow] at h
      constructor
      · intro hconf
        simp only [hconf, if_true] at h
        injection h with h
        subst h
        exact ⟨rfl, rfl⟩
      · intro hnc
        simp only [hnc, if_false] at h
        injection h with h
        subst h
        exact ⟨rfl, rfl⟩
    · intro hdel hidor
      unfold syncStep at h
      simp only [hdel, if_false, Bool.false_eq_true] at h
      rcases hidor with hid | hid
      · rw [hid] at h
        injection h with h
        subst h
        exact ⟨rfl, rfl⟩
      · rw [hid] at h
        have h2 : Except.ok (createStep uid now st e) = Except.ok st2 := h
        injection h2 with h2
        subst h2
        exact ⟨rfl, rfl⟩

def wCreate : SyncTodoEntry := { title := "new", client_updated_at := 7 }

def wCreatedState : SyncState :=
  ⟨{ wDB with todos := wDB.todos ++ [newTodoOf 2 "u1" wCreate 9], nextId := 3 },
    [] ++ [newTodoOf 2 "u1" wCreate 9], []⟩

theorem claim_C6_witness :
    wCreatedState.synced = ([] : List Todo) ++ [newTodoOf wDB.nextId "u1" wCreate 9] ∧
    wCreatedState.conflicts = ([] : List Todo) :=
  ((claim_C6_output_shape "u1" 9).2 ⟨wDB, [], []⟩ wCreatedState wCreate
    (by decide)).2.2 rfl (Or.inl rfl)

/-- C10: delete entries bypass conflict detection entirely — a delete with a
server id removes the `(id, user_id)` row with no comparison of the server's
`updated_at` to the entry's `client_updated_at`, even when the server row is
strictly newer, so the deletion wins; an update entry aimed at the same row
with the same `client_updated_at` is instead diverted to `conflicts` and
applies nothing. -/
theorem claim_C10_delete_bypass (uid : String) (now : Int) (st : SyncState)
    (e eu : SyncTodoEntry) (i : Nat) (row : Todo)
    (hdel : e.is_deleted = true) (hid : e.id = some i) (hiz : i ≠ 0)
    (hrow : findTodo st.db i uid = some row)
    (hconf : row.updated_at > e.client_updated_at)
    (hdel2 : eu.is_deleted = false) (hid2 : eu.id = some i)
    (hcua : eu.client_updated_at = e.client_updated_at) :
    (syncStep uid now st e = Except.ok { st with db := deleteTodoRow st.db i uid } ∧
      findTodo (deleteTodoRow st.db i uid) i uid = none) ∧
    syncStep uid now st eu = Except.ok { st with conflicts := st.conflicts ++ [row] } := by
  refine ⟨⟨?_, findTodo_deleteTodoRow_self st.db i uid⟩, ?_⟩
  · unfold syncStep
    simp only [hdel, hid, hiz, if_true, if_false]
  · have hconf2 : row.updated_at > eu.client_updated_at := by
      rw [hcua]
      exact hconf
    unfold syncStep
    simp only [hdel2, hid2, hiz, if_false, Bool.false_eq_true]
    rw [show findTodo st.db i uid = some row from hrow]
    simp only [hconf2, if_true]

def wDelC : SyncTodoEntry :=
  { id := some 1, title := "x", client_updated_at := 1, is_deleted := true }

def wUpdC : SyncTodoEntry := { id := some 1, title := "x", client_updated_at := 1 }

theorem claim_C10_witness :
    (syncStep "u1" 9 ⟨wDB, [], []⟩ wDelC =
        Except.ok { db := deleteTodoRow wDB 1 "u1", synced := [], conflicts := [] } ∧
      findTodo (deleteTodoRow wDB 1 "u1") 1 "u1" = none) ∧
    syncStep "u1" 9 ⟨wDB, [], []⟩ wUpdC =
      Except.ok { db := wDB, synced := [], conflicts := [] ++ [wTodo] } :=
  claim_C10_delete_bypass "u1" 9 ⟨wDB, [], []⟩ wDelC wUpdC 1 wTodo rfl rfl
    (by decide) (by decide) (by decide) rfl rfl rfl

theorem optFilter_eq_true {α : Type} (o : Option α) (p : α → Bool) :
    optFilter o p = true ↔ ∀ x, o = some x → p x = true := by
  cases o with
  | none => simp [optFilter]
  | some x => simp [optFilter]

theorem lteNullable_eq_true (d : Option Int) (x : Int) :
    lteNullable d x = true ↔ ∃ v, d = some v ∧ v ≤ x := by
  cases d with
  | none => simp [lteNullable]
  | some v => simp [lteNullable]

theorem gteNullable_eq_true (d : Option Int) (x : Int) :
    gteNullable d x = true ↔ ∃ v, d = some v ∧ x ≤ v := by
  cases d with
  | none => simp [gteNullable]
  | some v => simp [gteNullable]

/-- C7: `getTodos` returns exactly the caller's rows that satisfy every
supplied filter at once (logical AND): mandatory `user_id` equality, exact
matches for `category_id`, `is_completed` and `priority`, inclusive
`due_before`/`due_after` bounds on `due_date` that a NULL `due_date` never
satisfies, and `last_synced_after` as an inclusive lower bound on
`client_updated_at`. -/
theorem claim_C7_filter_semantics (db : DB) (input : GetTodosInput) (t : Todo) :
    t ∈ getTodos db input ↔
      t ∈ db.todos ∧ t.user_id = input.user_id ∧
      (∀ c, input.category_id = some c → t.category_id = some c) ∧
      (∀ b, input.is_completed = some b → t.is_completed = b) ∧
      (∀ x, input.due_before = some x → ∃ d, t.due_date = some d ∧ d ≤ x) ∧
      (∀ x, input.due_after = some x → ∃ d, t.due_date = some d ∧ x ≤ d) ∧
      (∀ p, input.priority = some p → t.priority = p) ∧
      (∀ x, input.last_synced_after = some x → x ≤ t.client_updated_at) := by
  unfold getTodos
  rw [List.mem_filter]
  unfold matchesFilters
  simp only [Bool.and_eq_true, optFilter_eq_true, lteNullable_eq_true,
    gteNullable_eq_true, decide_eq_true_eq]
  tauto

/-- C8: `getTodos` is total (the embedding returns a plain list, the handler
raises nothing of its own): it never consults the `users` table at all, and
whenever no row satisfies the filters — in particular for a `user_id` that
exists nowhere — the result is the empty list rather than an error. -/
theorem claim_C8_empty_result (db : DB) (input : GetTodosInput) (us : List String) :
    (getTodos { db with users := us } input = getTodos db input) ∧
    ((∀ t ∈ db.todos, matchesFilters input t = false) → getTodos db input = []) := by
  constructor
  · rfl
  · intro h
    unfold getTodos
    rw [List.filter_eq_nil_iff]
    intro t ht
    rw [h t ht]
    simp

theorem claim_C8_witness :
    getTodos wDB { user_id := "zz" } = [] :=
  (claim_C8_empty_result wDB { user_id := "zz" } []).2 (by decide)

/-- C9: the direct `updateTodo` operation addresses its row by `id` alone —
`UpdateTodoInput` carries no user identity — so whenever a row with that id
exists (whoever owns it) and any provided category exists, the update is
applied and the updated row returned; the row's owner is carried through
unchanged and is never consulted. -/
theorem claim_C9_no_ownership_check (db : DB) (now : Int) (input : UpdateTodoInput)
    (row : Todo) (hrow : findTodoById db input.id = some row)
    (hcat : ∀ c, input.category_id = some (some c) → db.categories.contains c) :
    updateTodo db now input = updateTodoApply db now input row ∧
    (updateTodoApply db now input row).2 = Except.ok (applyDirectUpdate row input now) ∧
    (applyDirectUpdate row input now).user_id = row.user_id ∧
    (applyDirectUpdate row input now).id = row.id := by
  refine ⟨?_, rfl, rfl, rfl⟩
  unfold updateTodo
  rw [hrow]
  cases hci : input.category_id with
  | none => rfl
  | some oc =>
    cases oc with
    | none => rfl
    | some c =>
      have hc := hcat c hci
      have hmem : c ∈ db.categories := by simpa using hc
      simp [hc, hmem]

def wUpdInput : UpdateTodoInput := { id := 1, title := some "zz" }

theorem claim_C9_witness :
    updateTodo wDB 7 wUpdInput = updateTodoApply wDB 7 wUpdInput wTodo ∧
    (updateTodoApply wDB 7 wUpdInput wTodo).2 =
      Except.ok (applyDirectUpdate wTodo wUpdInput 7) ∧
    (applyDirectUpdate wTodo wUpdInput 7).user_id = wTodo.user_id ∧
    (applyDirectUpdate wTodo wUpdInput 7).id = wTodo.id :=
  claim_C9_no_ownership_check wDB 7 wUpdInput wTodo (by decide)
    (fun c hc => Option.noConfusion hc)

end OfflineTodoSync
